import Mathlib

/-!
Verification development for the `kodi_addon` module (src/kodi_addon.py).

The module installs a kodi addon and its transitive dependencies from a remote
catalog (`addons.xml`) into `<home>/addons/`, keeping the sqlite `installed`
table at `<home>/userdata/Database/Addons27.db` in sync, and supports removal
and ansible check mode.

The embedding below is a shallow model of the python source:
  * the filesystem is the set of existing paths (`St.fs`),
  * the `installed` table is a list of rows (`St.db`); only the store at the
    configured kodi home exists, so `sqlite3_connect` against any other path
    fails (`connectDb`),
  * network and OS effects that can fail (urlretrieve, zip extraction, the
    recursive chown) are driven by boolean oracles (`Oracles`),
  * every externally visible effect is recorded in an event trace
    (`St.trace`), so "no network access" is "no `downloaded` event".
Unbounded recursion in `install_addon` (the source has no cycle guard) is
modelled with explicit fuel; exhausting the fuel is the `outOfFuel` error.
-/

deriving instance DecidableEq for Except

namespace KodiAddon

/-- One row of the `installed` table.  The column list mirrors the seven
values supplied by the INSERT statement in `update_db` (line 143):
surrogate id, `addonID`, `enabled`, install date, and the reserved
`lastUpdated`, `lastUsed`, `origin` columns.  The surrogate id is nullable:
SQL `MAX(id)+1` is NULL over an empty table. -/
structure Row where
  id : Option Nat
  addonID : String
  enabled : Bool
  installDate : String
  lastUpdated : Option String
  lastUsed : Option String
  origin : String
deriving Repr, DecidableEq

/-- Externally visible effects of a run, in order of occurrence. -/
inductive Event
  /-- a `urlretrieve` call (network access), with the url fetched -/
  | downloaded (url : String)
  /-- `ZipFile(...).extractall` into the addons directory -/
  | extracted (addon : String)
  /-- the recursive `chown` walk over the addon directory -/
  | chowned (addon : String)
  /-- the `update_db` call on the full install path (line 190) -/
  | upserted (addon : String) (enabled : Bool)
  /-- the `update_db(addon, home, True)` call on the already-present fast
  path (line 155) -/
  | fastUpserted (addon : String)
  /-- `rmtree` of an addon directory -/
  | deletedDir (p : String)
deriving Repr, DecidableEq

/-- Errors: python exceptions the source can raise, plus `outOfFuel` marking
that the modelled recursion exceeded its fuel bound (the source would keep
recursing). -/
inductive Err
  /-- `sqlite3.connect` cannot open the database file -/
  | dbOpenFailed
  /-- a SQL statement names a column the `installed` table does not have -/
  | noSuchColumn
  /-- `addons.find(...)` returned None and `.text` raised (addon id absent
  from the catalog) -/
  | unknownAddon (a : String)
  | downloadFailed (url : String)
  | extractFailed (a : String)
  | chownFailed (a : String)
  | outOfFuel
deriving Repr, DecidableEq

/-- The mutable world: `home` is the directory that actually holds the kodi
data (so the one existing Addons27.db lives at
`home ++ "/userdata/Database/Addons27.db"`), `fs` the set of existing
filesystem paths, `db` the `installed` table of that store, and `trace` the
effects performed so far. -/
structure St where
  home : String
  fs : List String
  db : List Row
  trace : List Event
deriving Repr, DecidableEq

/-- `sqlite3_connect("%s/userdata/Database/Addons27.db" % home)` followed by
use of the `installed` table.  Only the store at the world's kodi home
exists; connecting under any other path raises (the database file, and hence
its `installed` table, is not there). -/
def connectDb (s : St) (home : String) : Except Err (List Row) :=
  if home == s.home then .ok s.db else .error .dbOpenFailed

/-- `is_enabled` (lines 97-108): SELECT 1 FROM installed WHERE addonID = a
AND enabled. -/
def isEnabled (s : St) (addon home : String) : Except Err Bool :=
  match connectDb s home with
  | .error e => .error e
  | .ok t => .ok (t.any (fun r => r.addonID == addon && r.enabled))

/-- `is_in_db` (lines 111-122): SELECT id FROM installed WHERE addonID = a. -/
def isInDb (s : St) (addon home : String) : Except Err Bool :=
  match connectDb s home with
  | .error e => .error e
  | .ok t => .ok (t.any (fun r => r.addonID == addon))

/-- SQL `MAX(id)+1` over the current table: the aggregate is NULL on an empty
table (and when every stored id is NULL), and max+1 otherwise. -/
def nextId (t : List Row) : Option Nat :=
  match (t.filterMap Row.id).max? with
  | some m => some (m + 1)
  | none => none

/-- `update_db` (lines 125-148).  When a row for the addon exists its
`enabled` column is set to the argument; otherwise
`INSERT INTO installed select (MAX(id)+1),'<addon>',1,datetime(),NULL,NULL,''`
runs, whose `enabled` column is the literal 1 and whose install date is the
current time.  Modelled from the spec: §6 describes the external table only
by its column list, with no store-side key generation, so the inserted id is
exactly the value the SELECT computes. -/
def updateDb (s : St) (addon home : String) (enabled : Bool) (now : String) :
    Except Err St :=
  match isInDb s addon home with
  | .error e => .error e
  | .ok itsThere =>
    match connectDb s home with
    | .error e => .error e
    | .ok t =>
      if itsThere then
        .ok { s with db := t.map (fun r =>
          if r.addonID == addon then { r with enabled := enabled } else r) }
      else
        .ok { s with db := t ++ [⟨nextId t, addon, true, now, none, none, ""⟩] }

/-- A catalog entry: `<addon id=...>` with the text of
`extension/path` (relative path of the zip) and the `addon` attributes of
`requires/import` (declared dependency ids, in document order). -/
structure AddonDef where
  id : String
  zipPath : String
  deps : List String
deriving Repr, DecidableEq

/-- The parsed `addons.xml` document. -/
abbrev Catalog := List AddonDef

/-- `addons.findall('addon[@id="a"]/requires/import')` (line 159): the
declared dependency ids of every catalog entry whose id matches; the empty
list when the addon is absent. -/
def catDeps (cat : Catalog) (a : String) : List String :=
  (cat.filter (fun e => e.id == a)).flatMap AddonDef.deps

/-- `addons.find('addon[@id="a"]/extension/path').text` (line 167): the zip
path of the first matching entry; `none` makes the source raise
(AttributeError on `.text`), modelled as `unknownAddon`. -/
def catPath (cat : Catalog) (a : String) : Option String :=
  (cat.find? (fun e => e.id == a)).map AddonDef.zipPath

/-- Split a character list at every occurrence of `c`; python
`str.split(c)` semantics (the empty string gives `[""]`, separators at the
ends give empty components). -/
def splitOnC (c : Char) : List Char → List (List Char)
  | [] => [[]]
  | x :: xs =>
    let r := splitOnC c xs
    if x = c then [] :: r
    else
      match r with
      | h :: t => (x :: h) :: t
      | [] => [[x]]

/-- Python `s.split(c)` for a one-character separator. -/
def splitStr (c : Char) (s : String) : List String :=
  (splitOnC c s.data).map String.mk

/-- `dep_name.split('.')[0] == 'xbmc'` (line 163): dependencies in the host
platform namespace are not real addons and are skipped. -/
def isPlatformDep (d : String) : Bool :=
  (splitStr '.' d).getD 0 "" == "xbmc"

/-- `os.path.basename`: the last `/`-separated component. -/
def basename (p : String) : String :=
  ((splitStr '/' p).getLast?).getD ""

/-- Python `'/'.join(...)`. -/
def joinSlash : List String → String
  | [] => ""
  | [x] => x
  | x :: y :: xs => x ++ ("/" ++ joinSlash (y :: xs))

/-- The addon's directory: `"%s/addons/%s" % (home, addon)`. -/
def dirPath (home a : String) : String :=
  home ++ ("/addons/" ++ a)

/-- Where a downloaded zip is saved:
`"%s/addons/packages/%s" % (home, zip_base)`. -/
def pkgPath (home b : String) : String :=
  home ++ ("/addons/packages/" ++ b)

/-- Success/failure of the fallible external operations: whether fetching a
given url succeeds, whether extracting the archive of a given addon
succeeds, and whether the recursive chown for a given user and addon
succeeds. -/
structure Oracles where
  downloadOk : String → Bool
  extractOk : String → Bool
  chownOk : String → String → Bool

/-- The body of the for-loop at lines 160-164: visit the declared
dependencies in order, skip those in the `xbmc` namespace, and run the
recursive install (`rec`, the recursive `install_addon` call) on each of the
others, stopping at the first failure. -/
def installDepsWith (rec : String → St → Except (Err × St) St) :
    List String → St → Except (Err × St) St
  | [], s => .ok s
  | d :: ds, s =>
    if isPlatformDep d then installDepsWith rec ds s
    else
      match rec d s with
      | .error e => .error e
      | .ok s' => installDepsWith rec ds s'

/-- The world after `download(zip_url, zip_local)` (line 175): the zip file
exists under `addons/packages/` and the network access is on record. -/
def stAfterDl (home url zp : String) (s1 : St) : St :=
  { s1 with fs := s1.fs ++ [pkgPath home (basename zp)],
            trace := s1.trace ++ [.downloaded url] }

/-- The world after `extractall` (line 178): the addon directory exists. -/
def stAfterEx (home addon : String) (s2 : St) : St :=
  { s2 with fs := s2.fs ++ [dirPath home addon],
            trace := s2.trace ++ [.extracted addon] }

/-- The world after the recursive chown walk (lines 181-188). -/
def stAfterCh (addon : String) (s3 : St) : St :=
  { s3 with trace := s3.trace ++ [.chowned addon] }

/-- Lines 166-190 of `install_addon`, after the dependency loop: download
the zip (url joined from the repository base and the catalog's relative
path), extract it, chown the tree, and record the addon via
`update_db(addon, home, enabled)`.  A failing step raises, carrying the
world written so far. -/
def installFetch (o : Oracles) (repoUrl user home : String) (enabled : Bool)
    (now : String) (addon zp : String) (s1 : St) : Except (Err × St) St :=
  if o.downloadOk (repoUrl ++ ("/" ++ zp)) then
    if o.extractOk addon then
      if o.chownOk user addon then
        match updateDb
            (stAfterCh addon
              (stAfterEx home addon
                (stAfterDl home (repoUrl ++ ("/" ++ zp)) zp s1)))
            addon home enabled now with
        | .error e =>
          .error (e, stAfterCh addon
            (stAfterEx home addon
              (stAfterDl home (repoUrl ++ ("/" ++ zp)) zp s1)))
        | .ok s5 =>
          .ok { s5 with trace := s5.trace ++ [.upserted addon enabled] }
      else
        .error (.chownFailed addon,
          stAfterEx home addon
            (stAfterDl home (repoUrl ++ ("/" ++ zp)) zp s1))
    else
      .error (.extractFailed addon,
        stAfterDl home (repoUrl ++ ("/" ++ zp)) zp s1)
  else
    .error (.downloadFailed (repoUrl ++ ("/" ++ zp)), s1)

/-- Line 167 of `install_addon`: look up the zip path of the addon in the
catalog; a missing addon raises (`.text` on None). -/
def installCont (cat : Catalog) (o : Oracles) (repoUrl user home : String)
    (enabled : Bool) (now : String) (addon : String) (s1 : St) :
    Except (Err × St) St :=
  match catPath cat addon with
  | none => .error (.unknownAddon addon, s1)
  | some zp => installFetch o repoUrl user home enabled now addon zp s1

/-- The body of `install_addon` (lines 151-190), with the recursive call
abstracted as `ih`.  Fast path: if the addon directory already exists and
`enabled` is set, only `update_db(addon, home, True)` runs.  Otherwise the
declared non-platform dependencies are installed first (recursively, with
the same `enabled` flag), then `installCont` performs lines 166-190. -/
def installStep (cat : Catalog) (o : Oracles)
    (repoUrl user home release : String) (enabled : Bool) (now : String)
    (ih : String → St → Except (Err × St) St)
    (addon : String) (s : St) : Except (Err × St) St :=
  if s.fs.contains (dirPath home addon) && enabled then
    match updateDb s addon home true now with
    | .error e => .error (e, s)
    | .ok s' => .ok { s' with trace := s'.trace ++ [.fastUpserted addon] }
  else
    match installDepsWith ih (catDeps cat addon) s with
    | .error e => .error e
    | .ok s1 => installCont cat o repoUrl user home enabled now addon s1

/-- `install_addon` (lines 151-190): the recursion of the source, bounded by
explicit fuel (the source has no cycle guard, so its recursion is
unbounded; exhausting any fuel bound is the `outOfFuel` error).  Defined by
primitive recursion on the fuel so that concrete runs evaluate. -/
def installAddon (fuel : Nat) (cat : Catalog) (o : Oracles)
    (repoUrl user home release : String) (enabled : Bool) (now : String) :
    String → St → Except (Err × St) St :=
  Nat.rec (motive := fun _ => String → St → Except (Err × St) St)
    (fun _ s => .error (.outOfFuel, s))
    (fun _ ih => installStep cat o repoUrl user home release enabled now ih)
    fuel

/-- `remove_addon` (lines 193-209).  Note its parameter order is
`(addon, home)`.  The directory is removed if present; then the store is
opened under `home` and the row looked up by `addonID`; if a row exists the
source runs `DELETE FROM installed WHERE idAddon = ...`, but the `installed`
table has no `idAddon` column (spec §6 lists its columns, and every other
statement in the source uses `addonID`), so that statement raises. -/
def removeAddon (s : St) (addon home : String) :
    Except (Err × St) (Bool × St) :=
  let p := dirPath home addon
  let res :=
    if s.fs.contains p then
      (true, { s with fs := s.fs.filter (fun q => !(q == p)),
                      trace := s.trace ++ [.deletedDir p] })
    else (false, s)
  match connectDb res.2 home with
  | .error e => .error (e, res.2)
  | .ok t =>
    match t.find? (fun r => r.addonID == addon) with
    | some _ => .error (.noSuchColumn, res.2)
    | none => .ok res

/-- The validated `state` parameter. -/
inductive ModState
  | present
  | absent
  | enabled
  | disabled
deriving Repr, DecidableEq

/-- The module parameters after argument validation and default seeding
(`kodi_home` already resolved to a concrete directory). -/
structure Params where
  state : ModState
  name : String
  kodiUser : String
  kodiHome : String
  kodiRelease : String
deriving Repr, DecidableEq

/-- Releases whose store schema the module supports (lines 28-32). -/
def SUPPORTED_RELEASES : List String := ["krypton", "leia", "matrix"]

/-- How a run ends: `exit_json` with a changed flag, `fail_json` with a
message and the seeded result dict, or an uncaught python exception.  Each
carries the final world. -/
inductive Outcome
  | exited (changed : Bool) (s : St)
  | failedJson (msg : String) (changed : Bool) (s : St)
  | crashed (e : Err) (s : St)
deriving Repr, DecidableEq

/-- The final world of an outcome. -/
def outcomeSt : Outcome → St
  | .exited _ s => s
  | .failedJson _ _ s => s
  | .crashed _ s => s

/-- The changed flag of a non-crashed outcome. -/
def outcomeChanged : Outcome → Option Bool
  | .exited c _ => some c
  | .failedJson _ c _ => some c
  | .crashed _ _ => none

/-- Lines 299-319: download the catalog (network), parse it, and run
`install_addon` on the requested addon; on success report changed = True. -/
def applyInstall (fuel : Nat) (cat : Catalog) (o : Oracles) (p : Params)
    (enabled : Bool) (now : String) (s : St) : Outcome :=
  let kodiRepo :=
    "http://mirrors.kodi.tv/addons/" ++ (p.kodiRelease ++ "/addons.xml.gz")
  let repoBase := joinSlash ((splitStr '/' kodiRepo).dropLast)
  if o.downloadOk kodiRepo = false then
    .crashed (.downloadFailed kodiRepo) s
  else
    let s1 := { s with trace := s.trace ++ [.downloaded kodiRepo] }
    match installAddon fuel cat o repoBase p.kodiUser p.kodiHome
        p.kodiRelease enabled now p.name s1 with
    | .error (e, s') => .crashed e s'
    | .ok s' => .exited true s'

/-- `run_module` (lines 212-319).  The result dict is seeded with
changed = True; an unsupported release fails with that dict; `absent` is
handled first (honoring check mode there, and calling
`remove_addon(kodi_home, name)` — the source's swapped argument order is
preserved); for the remaining states the idempotency fast path exits
unchanged when the addon directory exists and the stored enabled flag
already matches, and otherwise the catalog is fetched and the install runs
(check mode is not consulted on this path, as in the source). -/
def runModule (fuel : Nat) (cat : Catalog) (o : Oracles) (p : Params)
    (checkMode : Bool) (now : String) (s : St) : Outcome :=
  if (SUPPORTED_RELEASES.contains p.kodiRelease) = false then
    .failedJson "Unsupported kodi release" true s
  else
    match p.state with
    | .absent =>
      if checkMode then
        match isInDb s p.name p.kodiHome with
        | .error e => .crashed e s
        | .ok indb =>
          .exited (s.fs.contains (dirPath p.kodiHome p.name) || indb) s
      else
        match removeAddon s p.kodiHome p.name with
        | .error (e, s') => .crashed e s'
        | .ok (chg, s') => .exited chg s'
    | st =>
      let enabled : Bool := st != ModState.disabled
      if s.fs.contains (dirPath p.kodiHome p.name) then
        match isEnabled s p.name p.kodiHome with
        | .error e => .crashed e s
        | .ok en =>
          if en == enabled then .exited false s
          else applyInstall fuel cat o p enabled now s
      else applyInstall fuel cat o p enabled now s

/-! ### Derived notions used by the statements -/

/-- The world an `install_addon` run ends in, whether it returned or raised. -/
def resSt : Except (Err × St) St → St
  | .ok s => s
  | .error (_, s) => s

/-- The addons recorded through the full install path, in completion order:
the install order materialised by a run (the `update_db` at line 190 is the
last step of installing one addon). -/
def installedList (tr : List Event) : List String :=
  tr.filterMap (fun e =>
    match e with
    | .upserted a _ => some a
    | _ => none)

/-- The id contains no `/` (an addon id never names a nested path). -/
def noSlash (a : String) : Prop := ('/' : Char) ∉ a.data

instance (a : String) : Decidable (noSlash a) := by
  unfold noSlash; infer_instance

/-- Every id and every declared dependency id in the catalog is slash-free. -/
def CatOk (cat : Catalog) : Prop :=
  ∀ e ∈ cat, noSlash e.id ∧ ∀ d ∈ e.deps, noSlash d

instance (cat : Catalog) : Decidable (CatOk cat) := by
  unfold CatOk; infer_instance

/-- Every addon whose directory exists was recorded by this run: the
invariant tying the filesystem to the materialised install order when the
run starts from a filesystem without addon directories. -/
def GoodSt (home : String) (s : St) : Prop :=
  ∀ x, noSlash x → dirPath home x ∈ s.fs → x ∈ installedList s.trace

/-- Dependency-before-dependent: every declared non-platform dependency of
any listed addon occurs strictly earlier in the list. -/
def DepsBef (cat : Catalog) (l : List String) : Prop :=
  ∀ (i : Nat) (x : String), l[i]? = some x → ∀ d, d ∈ catDeps cat x →
    isPlatformDep d = false → ∃ j : Nat, j < i ∧ l[j]? = some d

/-- `d` is a direct declared dependency of `x` that is not a platform
pseudo-dependency. -/
def DepOn (cat : Catalog) (d x : String) : Prop :=
  d ∈ catDeps cat x ∧ isPlatformDep d = false

/-- Is this trace entry a successful download? -/
def isDownloadEv : Option Event → Bool
  | some (.downloaded _) => true
  | _ => false

/-- The store-mutation discipline at trace position `i`: a full-path
`update_db` event is immediately preceded by the successful download,
extraction and ownership events of the same addon. -/
def blockedAt (tr : List Event) (i : Nat) : Bool :=
  match tr[i]? with
  | some (.upserted a _) =>
    (decide (3 ≤ i)) && isDownloadEv (tr[i - 3]?) &&
    (tr[i - 2]? == some (.extracted a)) &&
    (tr[i - 1]? == some (.chowned a))
  | _ => true

/-- Every full-path store mutation in the trace happens only right after the
download, extraction and ownership steps of that addon all succeeded. -/
def upsertBlocked (tr : List Event) : Prop :=
  ∀ i, i < tr.length → blockedAt tr i = true

instance (tr : List Event) : Decidable (upsertBlocked tr) := by
  unfold upsertBlocked; infer_instance

/-! ### Basic lemmas about the model -/

/-- `install_addon` with no fuel left: the modelled recursion bound. -/
theorem installAddon_zero (cat : Catalog) (o : Oracles)
    (repoUrl user home release : String) (enabled : Bool) (now : String) :
    installAddon 0 cat o repoUrl user home release enabled now =
      fun _ s => .error (.outOfFuel, s) := rfl

/-- Unfolding `install_addon` one level: the body runs with the recursive
call at one unit less fuel. -/
theorem installAddon_succ (f : Nat) (cat : Catalog) (o : Oracles)
    (repoUrl user home release : String) (enabled : Bool) (now : String) :
    installAddon (f + 1) cat o repoUrl user home release enabled now =
      installStep cat o repoUrl user home release enabled now
        (installAddon f cat o repoUrl user home release enabled now) := rfl

/-- `update_db` against a store that does not exist raises. -/
theorem updateDb_badHome {s : St} {addon home : String} {enabled : Bool}
    {now : String} (hh : (home == s.home) = false) :
    updateDb s addon home enabled now = .error .dbOpenFailed := by
  unfold updateDb isInDb connectDb
  rw [hh]
  rfl

/-- `update_db` when a record for the addon exists: UPDATE in place. -/
theorem updateDb_found {s : St} {addon home : String} {enabled : Bool}
    {now : String} (hh : (home == s.home) = true)
    (hf : s.db.any (fun r => r.addonID == addon) = true) :
    updateDb s addon home enabled now =
      .ok { s with db := s.db.map (fun r =>
        if r.addonID == addon then { r with enabled := enabled } else r) } := by
  unfold updateDb isInDb connectDb
  rw [hh]
  show (if (s.db.any fun r => r.addonID == addon) = true then
      (Except.ok { s with db := s.db.map (fun r =>
        if r.addonID == addon then { r with enabled := enabled } else r) } :
        Except Err St)
    else
      Except.ok { s with db :=
        s.db ++ [⟨nextId s.db, addon, true, now, none, none, ""⟩] }) = _
  rw [hf]
  rfl

/-- `update_db` when no record for the addon exists: the INSERT with the
computed key, the literal enabled flag 1, and the current time. -/
theorem updateDb_insert {s : St} {addon home : String} {enabled : Bool}
    {now : String} (hh : (home == s.home) = true)
    (hf : s.db.any (fun r => r.addonID == addon) = false) :
    updateDb s addon home enabled now =
      .ok { s with db :=
        s.db ++ [⟨nextId s.db, addon, true, now, none, none, ""⟩] } := by
  unfold updateDb isInDb connectDb
  rw [hh]
  show (if (s.db.any fun r => r.addonID == addon) = true then
      (Except.ok { s with db := s.db.map (fun r =>
        if r.addonID == addon then { r with enabled := enabled } else r) } :
        Except Err St)
    else
      Except.ok { s with db :=
        s.db ++ [⟨nextId s.db, addon, true, now, none, none, ""⟩] }) = _
  rw [hf]
  rfl

/-- `update_db` never touches the filesystem, the trace, or the configured
home. -/
theorem updateDb_frame (s : St) (addon home : String) (enabled : Bool)
    (now : String) (s' : St) (h : updateDb s addon home enabled now = .ok s') :
    s'.fs = s.fs ∧ s'.trace = s.trace ∧ s'.home = s.home := by
  cases hh : (home == s.home) with
  | false => rw [updateDb_badHome hh] at h; cases h
  | true =>
    cases hf : s.db.any (fun r => r.addonID == addon) with
    | true =>
      rw [updateDb_found hh hf] at h
      cases h
      exact ⟨rfl, rfl, rfl⟩
    | false =>
      rw [updateDb_insert hh hf] at h
      cases h
      exact ⟨rfl, rfl, rfl⟩

/-! Execution equations for the pieces of `install_addon`: one per branch of
its body, used to drive the run-level inductions. -/

/-- The fast path (lines 154-156): directory present and enabled
requested. -/
theorem installStep_fast {cat : Catalog} {o : Oracles}
    {ru u h rel : String} {en : Bool} {now : String}
    {ih : String → St → Except (Err × St) St} {addon : String} {s : St}
    (hfast : (s.fs.contains (dirPath h addon) && en) = true) :
    installStep cat o ru u h rel en now ih addon s =
      (match updateDb s addon h true now with
       | .error e => .error (e, s)
       | .ok s' => .ok { s' with trace := s'.trace ++ [.fastUpserted addon] }) := by
  unfold installStep
  rw [hfast]
  rfl

/-- The dependency loop failed: its error propagates. -/
theorem installStep_deps_err {cat : Catalog} {o : Oracles}
    {ru u h rel : String} {en : Bool} {now : String}
    {ih : String → St → Except (Err × St) St} {addon : String} {s : St}
    {e : Err × St}
    (hfast : (s.fs.contains (dirPath h addon) && en) = false)
    (hdeps : installDepsWith ih (catDeps cat addon) s = .error e) :
    installStep cat o ru u h rel en now ih addon s = .error e := by
  unfold installStep
  rw [hfast, if_neg Bool.false_ne_true, hdeps]

/-- The dependency loop succeeded: lines 166-190 run from its state. -/
theorem installStep_deps_ok {cat : Catalog} {o : Oracles}
    {ru u h rel : String} {en : Bool} {now : String}
    {ih : String → St → Except (Err × St) St} {addon : String} {s s1 : St}
    (hfast : (s.fs.contains (dirPath h addon) && en) = false)
    (hdeps : installDepsWith ih (catDeps cat addon) s = .ok s1) :
    installStep cat o ru u h rel en now ih addon s =
      installCont cat o ru u h en now addon s1 := by
  unfold installStep
  rw [hfast, if_neg Bool.false_ne_true, hdeps]

/-- The addon id is absent from the catalog: lookup of its path raises. -/
theorem installCont_unknown {cat : Catalog} {o : Oracles}
    {ru u h : String} {en : Bool} {now : String} {addon : String} {s1 : St}
    (hp : catPath cat addon = none) :
    installCont cat o ru u h en now addon s1 =
      .error (.unknownAddon addon, s1) := by
  unfold installCont
  rw [hp]

/-- The addon has a zip path: the fetch sequence runs. -/
theorem installCont_some {cat : Catalog} {o : Oracles}
    {ru u h : String} {en : Bool} {now : String} {addon zp : String} {s1 : St}
    (hp : catPath cat addon = some zp) :
    installCont cat o ru u h en now addon s1 =
      installFetch o ru u h en now addon zp s1 := by
  unfold installCont
  rw [hp]

/-! ### Concrete fixtures used by witnesses and counterexamples -/

/-- Oracles under which every download, extraction and chown succeeds. -/
def oAll : Oracles := ⟨fun _ => true, fun _ => true, fun _ _ => true⟩

/-- An empty world rooted at `/h`. -/
def sEmpty : St := ⟨"/h", [], [], []⟩

/-! ### C10: unsupported release fails early, with changed = true -/

/-- C10: for every invocation whose `kodi_release` is outside the supported
allow-list, the module fails before any filesystem or store access — the
returned world (its filesystem, store and effect trace) is exactly the
input world — yet the failure payload reports changed = true, because the
result dict is seeded with changed=True and passed unmodified to
`fail_json`. -/
theorem unsupported_release_fails_changed_true (fuel : Nat) (cat : Catalog)
    (o : Oracles) (p : Params) (checkMode : Bool) (now : String) (s : St)
    (h : SUPPORTED_RELEASES.contains p.kodiRelease = false) :
    runModule fuel cat o p checkMode now s =
      .failedJson "Unsupported kodi release" true s := by
  unfold runModule
  rw [h]
  rfl

/-- Witness for C10 at a concrete input. -/
theorem unsupported_release_fails_changed_true_w :
    SUPPORTED_RELEASES.contains "gotham" = false ∧
      runModule 1 [] oAll ⟨.enabled, "plugin.video.a", "kodi", "/h", "gotham"⟩
          false "T" sEmpty =
        .failedJson "Unsupported kodi release" true sEmpty :=
  ⟨by decide,
   unsupported_release_fails_changed_true 1 [] oAll
     ⟨.enabled, "plugin.video.a", "kodi", "/h", "gotham"⟩ false "T" sEmpty
     (by decide)⟩

/-! ### C4: idempotency fast path — no network, changed = false -/

/-- C4: with target state present or enabled, when the addon directory
already exists under the extension directory and the store's enabled flag
for the addon is already true, the run performs no network access at all
and exits with changed = false: the outcome is `exited false` and the final
world is exactly the input world, so in particular no `downloaded` event
(manifest fetch or package download) was emitted and nothing was written. -/
theorem enabled_fast_path_no_fetch (fuel : Nat) (cat : Catalog) (o : Oracles)
    (p : Params) (checkMode : Bool) (now : String) (s : St)
    (hrel : SUPPORTED_RELEASES.contains p.kodiRelease = true)
    (hstate : p.state = .present ∨ p.state = .enabled)
    (hhome : p.kodiHome = s.home)
    (hdir : s.fs.contains (dirPath p.kodiHome p.name) = true)
    (hen : s.db.any (fun r => r.addonID == p.name && r.enabled) = true) :
    runModule fuel cat o p checkMode now s = .exited false s := by
  have hrel' : p.kodiRelease ∈ SUPPORTED_RELEASES := by simpa using hrel
  have hdir' : dirPath s.home p.name ∈ s.fs := by
    rw [hhome] at hdir; simpa using hdir
  unfold runModule isEnabled connectDb
  rcases hstate with hstate | hstate <;>
    simp [hrel', hstate, hdir', hhome, Except.map, hen]

/-- Witness for C4 at a concrete input. -/
theorem enabled_fast_path_no_fetch_w :
    SUPPORTED_RELEASES.contains "leia" = true ∧
      ("/h" : String) = "/h" ∧
      (["/h/addons/plugin.video.a"] : List String).contains
        (dirPath "/h" "plugin.video.a") = true ∧
      ([(⟨some 1, "plugin.video.a", true, "t0", none, none, ""⟩ : Row)]).any
        (fun r => r.addonID == "plugin.video.a" && r.enabled) = true ∧
      runModule 3 [] oAll ⟨.enabled, "plugin.video.a", "kodi", "/h", "leia"⟩
          false "T"
          ⟨"/h", ["/h/addons/plugin.video.a"],
            [⟨some 1, "plugin.video.a", true, "t0", none, none, ""⟩], []⟩ =
        .exited false
          ⟨"/h", ["/h/addons/plugin.video.a"],
            [⟨some 1, "plugin.video.a", true, "t0", none, none, ""⟩], []⟩ :=
  ⟨by decide, rfl, by decide, by decide,
   enabled_fast_path_no_fetch 3 [] oAll
     ⟨.enabled, "plugin.video.a", "kodi", "/h", "leia"⟩ false "T"
     ⟨"/h", ["/h/addons/plugin.video.a"],
       [⟨some 1, "plugin.video.a", true, "t0", none, none, ""⟩], []⟩
     (by decide) (Or.inr rfl) rfl (by decide) (by decide)⟩

/-! ### C5: check mode is not honored outside the absent branch -/

/-- C5 failing input: check mode, state `enabled`, addon not yet installed.
The source consults `module.check_mode` only inside the `absent` branch
(line 276), so for `enabled` the run behaves exactly like an apply run: it
downloads the catalog and the package, extracts, and writes the store —
mutating the filesystem and the store although only a prediction was asked
for. -/
theorem check_mode_still_installs :
    runModule 5 [⟨"plugin.video.demo", "demo.zip", []⟩] oAll
        ⟨.enabled, "plugin.video.demo", "kodi", "/h", "leia"⟩ true "T" sEmpty =
      runModule 5 [⟨"plugin.video.demo", "demo.zip", []⟩] oAll
        ⟨.enabled, "plugin.video.demo", "kodi", "/h", "leia"⟩ false "T" sEmpty ∧
    (outcomeSt (runModule 5 [⟨"plugin.video.demo", "demo.zip", []⟩] oAll
        ⟨.enabled, "plugin.video.demo", "kodi", "/h", "leia"⟩ true "T"
        sEmpty)).fs ≠ sEmpty.fs ∧
    (outcomeSt (runModule 5 [⟨"plugin.video.demo", "demo.zip", []⟩] oAll
        ⟨.enabled, "plugin.video.demo", "kodi", "/h", "leia"⟩ true "T"
        sEmpty)).db ≠ sEmpty.db ∧
    Event.downloaded "http://mirrors.kodi.tv/addons/leia/addons.xml.gz" ∈
      (outcomeSt (runModule 5 [⟨"plugin.video.demo", "demo.zip", []⟩] oAll
        ⟨.enabled, "plugin.video.demo", "kodi", "/h", "leia"⟩ true "T"
        sEmpty)).trace := by decide

/-! ### C6: the apply removal path is broken -/

/-- C6 failing input: state `absent`, apply mode, an addon with a store
record and no directory.  The source calls `remove_addon(kodi_home, name)`
(line 285) although `remove_addon` is declared as `(addon, home)`, so the
store is opened under a path derived from the addon name, where no database
exists: the run crashes, the record is not deleted and no changed flag is
reported (and even with the arguments in the right order the DELETE names
the nonexistent column `idAddon`).  The check-mode branch of the same
state, which uses the correct paths, predicts changed = true. -/
theorem absent_apply_crashes :
    runModule 1 [] oAll
        ⟨.absent, "plugin.audio.x", "kodi", "/home/kodi/.kodi", "leia"⟩
        false "T"
        ⟨"/home/kodi/.kodi", [],
          [⟨some 1, "plugin.audio.x", true, "t0", none, none, ""⟩], []⟩ =
      .crashed .dbOpenFailed
        ⟨"/home/kodi/.kodi", [],
          [⟨some 1, "plugin.audio.x", true, "t0", none, none, ""⟩], []⟩ ∧
    runModule 1 [] oAll
        ⟨.absent, "plugin.audio.x", "kodi", "/home/kodi/.kodi", "leia"⟩
        true "T"
        ⟨"/home/kodi/.kodi", [],
          [⟨some 1, "plugin.audio.x", true, "t0", none, none, ""⟩], []⟩ =
      .exited true
        ⟨"/home/kodi/.kodi", [],
          [⟨some 1, "plugin.audio.x", true, "t0", none, none, ""⟩], []⟩ := by
  decide

/-! ### C7: the insert path of update_db ignores the enabled argument -/

/-- C7 failing input: `update_db(addon, home, enabled=False)` with no
existing record for the addon.  The INSERT statement's `enabled` column is
the literal 1, so the stored row is enabled although the caller asked for
disabled — against the claimed upsert contract, the code's own comment
("enabling it if requested") and the module documentation of
state=disabled.  The update path and the install-date stamping behave as
claimed; only the inserted enabled flag diverges. -/
theorem insert_ignores_disabled_flag :
    updateDb
        ⟨"/h", [], [⟨some 3, "script.module.other", false, "t0", none, none, ""⟩], []⟩
        "plugin.video.x" "/h" false "T" =
      .ok ⟨"/h", [],
        [⟨some 3, "script.module.other", false, "t0", none, none, ""⟩,
         ⟨some 4, "plugin.video.x", true, "T", none, none, ""⟩], []⟩ := by
  decide

/-! ### C3: a dependency cycle is never detected -/

/-- A two-cycle catalog: `plugin.a` requires `plugin.b` and vice versa. -/
def catCyc : Catalog :=
  [⟨"plugin.a", "a.zip", ["plugin.b"]⟩, ⟨"plugin.b", "b.zip", ["plugin.a"]⟩]

/-- On the cyclic catalog, resolution of either addon from the empty world
consumes every fuel bound without reaching a result. -/
theorem cyc_aux (repoUrl user release now : String) : ∀ f : Nat,
    installAddon f catCyc oAll repoUrl user "/h" release true now
        "plugin.a" sEmpty = .error (.outOfFuel, sEmpty) ∧
    installAddon f catCyc oAll repoUrl user "/h" release true now
        "plugin.b" sEmpty = .error (.outOfFuel, sEmpty) := by
  intro f
  induction f with
  | zero => exact ⟨rfl, rfl⟩
  | succ n ih =>
    constructor
    · rw [installAddon_succ]
      apply installStep_deps_err
      · decide
      · show installDepsWith _ ["plugin.b"] sEmpty = _
        unfold installDepsWith
        rw [if_neg (by decide : ¬ isPlatformDep "plugin.b" = true), ih.2]
    · rw [installAddon_succ]
      apply installStep_deps_err
      · decide
      · show installDepsWith _ ["plugin.a"] sEmpty = _
        unfold installDepsWith
        rw [if_neg (by decide : ¬ isPlatformDep "plugin.a" = true), ih.1]

/-- C3 failing input: a catalog in which `plugin.a` and `plugin.b` require
each other.  The source has no cycle guard and no `CyclicDependencyError`
exists anywhere in it: `install_addon` just recurses, so for every fuel
bound the modelled run ends in `outOfFuel` (the python original recurses
until the interpreter's recursion limit kills it) with the world untouched
— resolution never fails with a cycle error as the claim requires. -/
theorem cycle_never_detected : ∀ fuel : Nat,
    installAddon fuel catCyc oAll "http://r" "kodi" "/h" "leia" true "T"
        "plugin.a" sEmpty = .error (.outOfFuel, sEmpty) :=
  fun fuel => (cyc_aux "http://r" "kodi" "leia" "T" fuel).1

/-! ### C2: the enabled flag is asserted for dependencies too -/

/-- Catalog for the C2 counterexample: the requested addon depends on an
already-present library addon. -/
def catC2 : Catalog :=
  [⟨"plugin.video.a", "a.zip", ["script.module.b"]⟩,
   ⟨"script.module.b", "b.zip", []⟩]

/-- World for the C2 counterexample: the dependency's directory exists and
its store record says disabled. -/
def sC2 : St :=
  ⟨"/h", ["/h/addons/script.module.b"],
   [⟨some 1, "script.module.b", false, "t0", none, none, ""⟩], []⟩

/-- C2 counterexample: installing `plugin.video.a` with enabled=True
succeeds, and the already-present dependency `script.module.b` does NOT
have its existing store record left unmodified: the fast path runs
`update_db(dep, home, True)` (line 155), flipping the dependency's stored
enabled flag from false to true. -/
theorem dep_record_modified_cex :
    (installAddon 5 catC2 oAll "http://r" "kodi" "/h" "leia" true "T"
        "plugin.video.a" sC2).isOk = true ∧
    sC2.db.find? (fun r => r.addonID == "script.module.b") =
      some ⟨some 1, "script.module.b", false, "t0", none, none, ""⟩ ∧
    (resSt (installAddon 5 catC2 oAll "http://r" "kodi" "/h" "leia" true "T"
        "plugin.video.a" sC2)).db.find?
          (fun r => r.addonID == "script.module.b") =
      some ⟨some 1, "script.module.b", true, "t0", none, none, ""⟩ ∧
    Event.fastUpserted "script.module.b" ∈
      (resSt (installAddon 5 catC2 oAll "http://r" "kodi" "/h" "leia" true "T"
        "plugin.video.a" sC2)).trace := by decide

/-- Every full-path `update_db` event added by a run carries the run's
`enabled` flag: the same flag the caller passed for the root is what every
recursive dependency install records. -/
def newUpsertsCarry (en : Bool) (s : St) (r : Except (Err × St) St) : Prop :=
  ∀ x b, Event.upserted x b ∈ (resSt r).trace →
    Event.upserted x b ∈ s.trace ∨ b = en

/-- The dependency loop preserves `newUpsertsCarry` when every recursive
call does. -/
theorem installDepsWith_flag (rec : String → St → Except (Err × St) St)
    (en : Bool) (hr : ∀ d s, newUpsertsCarry en s (rec d s)) :
    ∀ ds s, newUpsertsCarry en s (installDepsWith rec ds s) := by
  intro ds
  induction ds with
  | nil => intro s x b hm; exact Or.inl hm
  | cons d ds ih =>
    intro s x b hm
    unfold installDepsWith at hm
    by_cases hp : isPlatformDep d = true
    · rw [if_pos hp] at hm
      exact ih s x b hm
    · rw [if_neg hp] at hm
      cases hrec : rec d s with
      | error e =>
        rw [hrec] at hm
        exact hr d s x b (by rw [hrec]; exact hm)
      | ok s' =>
        rw [hrec] at hm
        rcases ih s' x b hm with h1 | h1
        · exact hr d s x b (by rw [hrec]; exact h1)
        · exact Or.inr h1

/-- Every `install_addon` run satisfies `newUpsertsCarry`: any full-path
store record event it adds carries exactly the `enabled` flag of the run. -/
theorem installAddon_flag (cat : Catalog) (o : Oracles)
    (ru u h rel : String) (en : Bool) (now : String) :
    ∀ fuel addon s,
      newUpsertsCarry en s (installAddon fuel cat o ru u h rel en now addon s) := by
  intro fuel
  induction fuel with
  | zero => intro addon s x b hm; exact Or.inl hm
  | succ n ih =>
    intro addon s x b hm
    rw [installAddon_succ] at hm
    cases hfast : (s.fs.contains (dirPath h addon) && en) with
    | true =>
      rw [installStep_fast hfast] at hm
      cases hu : updateDb s addon h true now with
      | error e => rw [hu] at hm; exact Or.inl hm
      | ok s' =>
        rw [hu] at hm
        simp only [resSt] at hm
        rcases List.mem_append.1 hm with h1 | h1
        · rw [(updateDb_frame _ _ _ _ _ _ hu).2.1] at h1
          exact Or.inl h1
        · simp at h1
    | false =>
      cases hdeps : installDepsWith (installAddon n cat o ru u h rel en now)
          (catDeps cat addon) s with
      | error e =>
        rw [installStep_deps_err hfast hdeps] at hm
        exact installDepsWith_flag _ en (fun d s0 => ih d s0)
          (catDeps cat addon) s x b (by rw [hdeps]; exact hm)
      | ok s1 =>
        rw [installStep_deps_ok hfast hdeps] at hm
        have hs1 : Event.upserted x b ∈ s1.trace →
            Event.upserted x b ∈ s.trace ∨ b = en := fun hmem =>
          installDepsWith_flag _ en (fun d s0 => ih d s0)
            (catDeps cat addon) s x b (by rw [hdeps]; exact hmem)
        cases hp : catPath cat addon with
        | none => rw [installCont_unknown hp] at hm; exact hs1 hm
        | some zp =>
          rw [installCont_some hp] at hm
          unfold installFetch at hm
          by_cases hdl : o.downloadOk (ru ++ ("/" ++ zp)) = true
          · rw [if_pos hdl] at hm
            by_cases hex : o.extractOk addon = true
            · rw [if_pos hex] at hm
              by_cases hch : o.chownOk u addon = true
              · rw [if_pos hch] at hm
                cases hu : updateDb
                    (stAfterCh addon (stAfterEx h addon
                      (stAfterDl h (ru ++ ("/" ++ zp)) zp s1)))
                    addon h en now with
                | error e =>
                  rw [hu] at hm
                  simp [resSt, stAfterCh, stAfterEx, stAfterDl] at hm
                  exact hs1 hm
                | ok s5 =>
                  rw [hu] at hm
                  simp only [resSt] at hm
                  rcases List.mem_append.1 hm with h1 | h1
                  · rw [(updateDb_frame _ _ _ _ _ _ hu).2.1] at h1
                    simp [stAfterCh, stAfterEx, stAfterDl] at h1
                    exact hs1 h1
                  · simp at h1
                    exact Or.inr h1.2
              · rw [if_neg hch] at hm
                simp [resSt, stAfterEx, stAfterDl] at hm
                exact hs1 hm
            · rw [if_neg hex] at hm
              simp [resSt, stAfterDl] at hm
              exact hs1 hm
          · rw [if_neg hdl] at hm
            exact hs1 hm

/-- C2 amended: when the apply path installs a resolution plan, the
requested enabled flag is passed to every addon of the plan, dependencies
included, not only to the root: every full-path store record written by
the run carries exactly the requested flag (first conjunct), and a
dependency that must be newly installed is inserted with its enabled
column hardcoded to 1 — activated — rather than left in a store default
(second conjunct); an already-present dependency is not left unmodified
(see the counterexample: the fast path re-asserts its flag). -/
theorem enabled_flag_reaches_all_deps :
    (∀ (fuel : Nat) (cat : Catalog) (o : Oracles)
        (repoUrl user home release : String) (enabled : Bool)
        (now addon : String) (s : St),
        s.trace = [] →
        ∀ x b, Event.upserted x b ∈
            (resSt (installAddon fuel cat o repoUrl user home release enabled
              now addon s)).trace →
          b = enabled) ∧
    (∀ (s : St) (addon home : String) (en : Bool) (now : String) (s' : St),
        s.db.any (fun r => r.addonID == addon) = false →
        updateDb s addon home en now = .ok s' →
        s'.db = s.db ++ [⟨nextId s.db, addon, true, now, none, none, ""⟩]) := by
  constructor
  · intro fuel cat o ru u h rel en now addon s htr x b hm
    rcases installAddon_flag cat o ru u h rel en now fuel addon s x b hm
      with h1 | h1
    · rw [htr] at h1; cases h1
    · exact h1
  · intro s addon home en now s' hne hu
    cases hh : (home == s.home) with
    | false => rw [updateDb_badHome hh] at hu; cases hu
    | true =>
      rw [updateDb_insert hh hne] at hu
      cases hu
      rfl

/-- Witness for the amended C2 at a concrete input: a run with
enabled=False records its dependency with flag false. -/
theorem enabled_flag_reaches_all_deps_w :
    sEmpty.trace = [] ∧
    Event.upserted "script.module.b" false ∈
      (resSt (installAddon 5 catC2 oAll "http://r" "kodi" "/h" "leia" false
        "T" "plugin.video.a" sEmpty)).trace ∧
    false = false :=
  ⟨rfl, by decide,
   enabled_flag_reaches_all_deps.1 5 catC2 oAll "http://r" "kodi" "/h" "leia"
     false "T" "plugin.video.a" sEmpty rfl "script.module.b" false
     (by decide)⟩

/-! ### C9: store mutation only after download, unpack and chown succeed -/

/-- A position that does not hold a full-path upsert satisfies the
discipline trivially. -/
theorem blockedAt_not_upsert {tr : List Event} {i : Nat}
    (h : ∀ a b, tr[i]? ≠ some (Event.upserted a b)) : blockedAt tr i = true := by
  unfold blockedAt
  cases hg : tr[i]? with
  | none => rfl
  | some ev =>
    cases ev with
    | upserted a b => exact absurd hg (h a b)
    | downloaded u => rfl
    | extracted a => rfl
    | chowned a => rfl
    | fastUpserted a => rfl
    | deletedDir p => rfl

/-- Unfolding the discipline at a full-path upsert position. -/
theorem blockedAt_upsert {tr : List Event} {i : Nat} {a : String} {en : Bool}
    (h : tr[i]? = some (Event.upserted a en)) :
    blockedAt tr i =
      ((decide (3 ≤ i)) && isDownloadEv (tr[i - 3]?) &&
       (tr[i - 2]? == some (.extracted a)) &&
       (tr[i - 1]? == some (.chowned a))) := by
  unfold blockedAt
  rw [h]

/-- The empty trace satisfies the discipline. -/
theorem upsertBlocked_nil : upsertBlocked [] := by
  intro i hi
  simp at hi

/-- Appending a non-upsert event preserves the discipline. -/
theorem upsertBlocked_append_one (tr : List Event) (e0 : Event)
    (h : upsertBlocked tr) (he : ∀ a b, e0 ≠ Event.upserted a b) :
    upsertBlocked (tr ++ [e0]) := by
  intro i hi
  have hi1 : i < tr.length + 1 := by simpa using hi
  by_cases hlt : i < tr.length
  · have g0 : (tr ++ [e0])[i]? = tr[i]? := List.getElem?_append_left hlt
    have g1 : (tr ++ [e0])[i - 1]? = tr[i - 1]? :=
      List.getElem?_append_left (Nat.lt_of_le_of_lt (Nat.sub_le i 1) hlt)
    have g2 : (tr ++ [e0])[i - 2]? = tr[i - 2]? :=
      List.getElem?_append_left (Nat.lt_of_le_of_lt (Nat.sub_le i 2) hlt)
    have g3 : (tr ++ [e0])[i - 3]? = tr[i - 3]? :=
      List.getElem?_append_left (Nat.lt_of_le_of_lt (Nat.sub_le i 3) hlt)
    unfold blockedAt
    rw [g0, g1, g2, g3]
    exact h i hlt
  · have hi' : i = tr.length := by omega
    subst hi'
    have g0 : (tr ++ [e0])[tr.length]? = some e0 := by
      rw [List.getElem?_append_right (Nat.le_refl _), Nat.sub_self]
      rfl
    apply blockedAt_not_upsert
    intro a b hg
    rw [g0] at hg
    cases hg
    exact absurd rfl (he a b)

/-- Appending a complete download/extract/chown/upsert block preserves the
discipline. -/
theorem upsertBlocked_append_block (tr : List Event) (u a : String)
    (en : Bool) (h : upsertBlocked tr) :
    upsertBlocked (tr ++
      [.downloaded u, .extracted a, .chowned a, .upserted a en]) := by
  intro i hi
  have hi4 : i < tr.length + 4 := by simpa using hi
  by_cases hlt : i < tr.length
  · have g0 : (tr ++ [Event.downloaded u, .extracted a, .chowned a,
        .upserted a en])[i]? = tr[i]? := List.getElem?_append_left hlt
    have g1 : (tr ++ [Event.downloaded u, .extracted a, .chowned a,
        .upserted a en])[i - 1]? = tr[i - 1]? :=
      List.getElem?_append_left (Nat.lt_of_le_of_lt (Nat.sub_le i 1) hlt)
    have g2 : (tr ++ [Event.downloaded u, .extracted a, .chowned a,
        .upserted a en])[i - 2]? = tr[i - 2]? :=
      List.getElem?_append_left (Nat.lt_of_le_of_lt (Nat.sub_le i 2) hlt)
    have g3 : (tr ++ [Event.downloaded u, .extracted a, .chowned a,
        .upserted a en])[i - 3]? = tr[i - 3]? :=
      List.getElem?_append_left (Nat.lt_of_le_of_lt (Nat.sub_le i 3) hlt)
    unfold blockedAt
    rw [g0, g1, g2, g3]
    exact h i hlt
  · have hR : ∀ j, tr.length ≤ j →
        (tr ++ [Event.downloaded u, .extracted a, .chowned a,
          .upserted a en])[j]? =
        [Event.downloaded u, .extracted a, .chowned a,
          .upserted a en][j - tr.length]? :=
      fun j hj => List.getElem?_append_right hj
    have hcase : i = tr.length ∨ i = tr.length + 1 ∨ i = tr.length + 2 ∨
        i = tr.length + 3 := by omega
    rcases hcase with hc | hc | hc | hc <;> subst hc
    · apply blockedAt_not_upsert
      intro x b hg
      rw [hR _ (Nat.le_refl _), Nat.sub_self] at hg
      cases hg
    · apply blockedAt_not_upsert
      intro x b hg
      rw [hR _ (by omega), show tr.length + 1 - tr.length = 1 by omega] at hg
      cases hg
    · apply blockedAt_not_upsert
      intro x b hg
      rw [hR _ (by omega), show tr.length + 2 - tr.length = 2 by omega] at hg
      cases hg
    · have g0 : (tr ++ [Event.downloaded u, .extracted a, .chowned a,
          .upserted a en])[tr.length + 3]? = some (Event.upserted a en) := by
        rw [hR _ (by omega), show tr.length + 3 - tr.length = 3 by omega]
        rfl
      rw [blockedAt_upsert g0]
      rw [show tr.length + 3 - 3 = tr.length by omega,
          hR _ (Nat.le_refl _), Nat.sub_self]
      rw [show tr.length + 3 - 2 = tr.length + 1 by omega, hR _ (by omega),
          show tr.length + 1 - tr.length = 1 by omega]
      rw [show tr.length + 3 - 1 = tr.length + 2 by omega, hR _ (by omega),
          show tr.length + 2 - tr.length = 2 by omega]
      simp [isDownloadEv, Nat.le_add_left]

/-- The dependency loop preserves the store-mutation discipline when every
recursive call does. -/
theorem installDepsWith_blocked (rec : String → St → Except (Err × St) St)
    (hr : ∀ d s, upsertBlocked s.trace →
      upsertBlocked (resSt (rec d s)).trace) :
    ∀ ds s, upsertBlocked s.trace →
      upsertBlocked (resSt (installDepsWith rec ds s)).trace := by
  intro ds
  induction ds with
  | nil => intro s h; exact h
  | cons d ds ih =>
    intro s h
    unfold installDepsWith
    by_cases hp : isPlatformDep d = true
    · rw [if_pos hp]
      exact ih s h
    · rw [if_neg hp]
      cases hrec : rec d s with
      | error e =>
        have := hr d s h
        rw [hrec] at this
        exact this
      | ok s' =>
        have hs' : upsertBlocked s'.trace := by
          have := hr d s h
          rw [hrec] at this
          exact this
        exact ih s' hs'

/-- Every `install_addon` run preserves the store-mutation discipline: in
the resulting trace (of a success or of a failure) every full-path store
write is immediately preceded by that addon's successful download,
extraction and ownership steps. -/
theorem installAddon_blocked (cat : Catalog) (o : Oracles)
    (ru u h rel : String) (en : Bool) (now : String) :
    ∀ fuel addon s, upsertBlocked s.trace →
      upsertBlocked
        (resSt (installAddon fuel cat o ru u h rel en now addon s)).trace := by
  intro fuel
  induction fuel with
  | zero => intro addon s hb; exact hb
  | succ n ih =>
    intro addon s hb
    rw [installAddon_succ]
    cases hfast : (s.fs.contains (dirPath h addon) && en) with
    | true =>
      rw [installStep_fast hfast]
      cases hu : updateDb s addon h true now with
      | error e => exact hb
      | ok s' =>
        show upsertBlocked (s'.trace ++ [Event.fastUpserted addon])
        rw [(updateDb_frame _ _ _ _ _ _ hu).2.1]
        exact upsertBlocked_append_one _ _ hb
          (fun a b hg => Event.noConfusion hg)
    | false =>
      cases hdeps : installDepsWith (installAddon n cat o ru u h rel en now)
          (catDeps cat addon) s with
      | error e =>
        rw [installStep_deps_err hfast hdeps]
        have := installDepsWith_blocked _ (fun d s0 => ih d s0)
          (catDeps cat addon) s hb
        rw [hdeps] at this
        exact this
      | ok s1 =>
        rw [installStep_deps_ok hfast hdeps]
        have h1 : upsertBlocked s1.trace := by
          have := installDepsWith_blocked _ (fun d s0 => ih d s0)
            (catDeps cat addon) s hb
          rw [hdeps] at this
          exact this
        cases hp : catPath cat addon with
        | none => rw [installCont_unknown hp]; exact h1
        | some zp =>
          rw [installCont_some hp]
          unfold installFetch
          by_cases hdl : o.downloadOk (ru ++ ("/" ++ zp)) = true
          · rw [if_pos hdl]
            by_cases hex : o.extractOk addon = true
            · rw [if_pos hex]
              by_cases hch : o.chownOk u addon = true
              · rw [if_pos hch]
                cases hu : updateDb
                    (stAfterCh addon (stAfterEx h addon
                      (stAfterDl h (ru ++ ("/" ++ zp)) zp s1)))
                    addon h en now with
                | error e =>
                  show upsertBlocked
                    (((s1.trace ++ [Event.downloaded (ru ++ ("/" ++ zp))]) ++
                      [Event.extracted addon]) ++ [Event.chowned addon])
                  exact upsertBlocked_append_one _ _
                    (upsertBlocked_append_one _ _
                      (upsertBlocked_append_one _ _ h1
                        (fun a b hg => Event.noConfusion hg))
                      (fun a b hg => Event.noConfusion hg))
                    (fun a b hg => Event.noConfusion hg)
                | ok s5 =>
                  show upsertBlocked (s5.trace ++ [Event.upserted addon en])
                  rw [(updateDb_frame _ _ _ _ _ _ hu).2.1]
                  show upsertBlocked
                    ((((s1.trace ++ [Event.downloaded (ru ++ ("/" ++ zp))]) ++
                      [Event.extracted addon]) ++ [Event.chowned addon]) ++
                      [Event.upserted addon en])
                  rw [show (((s1.trace ++
                        [Event.downloaded (ru ++ ("/" ++ zp))]) ++
                        [Event.extracted addon]) ++ [Event.chowned addon]) ++
                        [Event.upserted addon en] =
                      s1.trace ++ [Event.downloaded (ru ++ ("/" ++ zp)),
                        Event.extracted addon, Event.chowned addon,
                        Event.upserted addon en] by simp]
                  exact upsertBlocked_append_block _ _ _ _ h1
              · rw [if_neg hch]
                show upsertBlocked
                  ((s1.trace ++ [Event.downloaded (ru ++ ("/" ++ zp))]) ++
                    [Event.extracted addon])
                exact upsertBlocked_append_one _ _
                  (upsertBlocked_append_one _ _ h1
                    (fun a b hg => Event.noConfusion hg))
                  (fun a b hg => Event.noConfusion hg)
            · rw [if_neg hex]
              show upsertBlocked
                (s1.trace ++ [Event.downloaded (ru ++ ("/" ++ zp))])
              exact upsertBlocked_append_one _ _ h1
                (fun a b hg => Event.noConfusion hg)
          · rw [if_neg hdl]
            exact h1

/-- C9: within the per-addon install, the store mutation of the full
install path happens only after download, unpack and recursive ownership
assignment have all succeeded for that addon: in the trace of any run
started with a clean trace — successful or failed — every full-path
`update_db` event sits immediately after the `downloaded`, `extracted` and
`chowned` events of that same addon, so a failure of any of those steps
aborts the body before its store write and the store is left unchanged for
that addon. -/
theorem store_write_only_after_steps (fuel : Nat) (cat : Catalog)
    (o : Oracles) (repoUrl user home release : String) (enabled : Bool)
    (now addon : String) (s : St) (htr : s.trace = []) :
    upsertBlocked
      (resSt (installAddon fuel cat o repoUrl user home release enabled now
        addon s)).trace := by
  apply installAddon_blocked
  rw [htr]
  exact upsertBlocked_nil

/-- Witness for C9 at a concrete input (a run that installs a dependency
and its root, with failing-chown variation left to the theorem's
generality). -/
theorem store_write_only_after_steps_w :
    sEmpty.trace = [] ∧
    upsertBlocked
      (resSt (installAddon 5 catC2 oAll "http://r" "kodi" "/h" "leia" true
        "T" "plugin.video.a" sEmpty)).trace :=
  ⟨rfl, store_write_only_after_steps 5 catC2 oAll "http://r" "kodi" "/h"
    "leia" true "T" "plugin.video.a" sEmpty rfl⟩

/-! ### C1: dependency-first install order, platform dependencies skipped -/

/-- Two strings with equal character data are equal. -/
theorem str_ext {a b : String} (h : a.data = b.data) : a = b := by
  cases a; cases b; exact congrArg String.mk h

/-- The addon-directory path determines the addon id. -/
theorem dirPath_inj {home x y : String} (h : dirPath home x = dirPath home y) :
    x = y := by
  unfold dirPath at h
  have hd := congrArg String.data h
  rw [String.data_append, String.data_append, String.data_append,
      String.data_append] at hd
  exact str_ext (List.append_cancel_left (List.append_cancel_left hd))

/-- A slash-free addon id's directory is never a packages file path. -/
theorem dirPath_ne_pkgPath {home x b : String} (hx : noSlash x) :
    dirPath home x ≠ pkgPath home b := by
  intro h
  unfold dirPath pkgPath at h
  have hd := congrArg String.data h
  rw [String.data_append, String.data_append, String.data_append,
      String.data_append] at hd
  have h2 : x.data = "packages/".data ++ b.data := by
    have h4 : "/addons/packages/".data =
        "/addons/".data ++ "packages/".data := by decide
    have h5 := List.append_cancel_left hd
    rw [h4, List.append_assoc] at h5
    exact List.append_cancel_left h5
  apply hx
  rw [h2]
  exact List.mem_append_left _ (by decide)

/-- `installedList` distributes over trace concatenation. -/
theorem installedList_append (t1 t2 : List Event) :
    installedList (t1 ++ t2) = installedList t1 ++ installedList t2 :=
  List.filterMap_append t1 t2 _

/-- Declared dependencies of a well-formed catalog are slash-free. -/
theorem catDeps_noSlash {cat : Catalog} (hcat : CatOk cat) {a d : String}
    (hd : d ∈ catDeps cat a) : noSlash d := by
  unfold catDeps at hd
  rcases List.mem_flatMap.mp hd with ⟨e, he, hde⟩
  exact (hcat e (List.mem_of_mem_filter he)).2 d hde

/-- Appending an addon whose non-platform dependencies are already listed
preserves the dependency-first ordering. -/
theorem DepsBef_snoc {cat : Catalog} {l : List String} {x0 : String}
    (h : DepsBef cat l)
    (hd : ∀ d ∈ catDeps cat x0, isPlatformDep d = false → d ∈ l) :
    DepsBef cat (l ++ [x0]) := by
  intro i x hget d hdm hdp
  by_cases hlt : i < l.length
  · rw [List.getElem?_append_left hlt] at hget
    rcases h i x hget d hdm hdp with ⟨j, hj, hgj⟩
    exact ⟨j, hj, by
      rw [List.getElem?_append_left (Nat.lt_trans hj hlt)]; exact hgj⟩
  · have hb : i < l.length + 1 := by
      rcases List.getElem?_eq_some_iff.mp hget with ⟨hlen, _⟩
      simpa using hlen
    have hi : i = l.length := by omega
    subst hi
    have hx : x = x0 := by
      rw [List.getElem?_append_right (Nat.le_refl _), Nat.sub_self] at hget
      cases hget; rfl
    subst hx
    rcases List.mem_iff_getElem?.mp (hd d hdm hdp) with ⟨j, hgj⟩
    have hjlen : j < l.length := by
      rcases List.getElem?_eq_some_iff.mp hgj with ⟨hj, _⟩
      exact hj
    exact ⟨j, hjlen, by rw [List.getElem?_append_left hjlen]; exact hgj⟩

/-- From direct dependency-first ordering to the transitive version: every
transitive non-platform dependency of a listed addon occurs strictly
earlier. -/
theorem DepsBef_trans {cat : Catalog} {l : List String}
    (h : DepsBef cat l) :
    ∀ (i : Nat) (x : String), l[i]? = some x →
      ∀ d, Relation.TransGen (DepOn cat) d x →
        ∃ j : Nat, j < i ∧ l[j]? = some d := by
  intro i
  induction i using Nat.strong_induction_on with
  | _ i ih =>
    intro x hget d htg
    cases htg with
    | single hdx => exact h i x hget d hdx.1 hdx.2
    | tail hdb hbx =>
      rcases h i x hget _ hbx.1 hbx.2 with ⟨j, hji, hgj⟩
      rcases ih j hji _ hgj d hdb with ⟨k, hkj, hgk⟩
      exact ⟨k, Nat.lt_trans hkj hji, hgk⟩

/-- What one successful `install_addon` call guarantees: the trace grows by
events whose full-path installs are the addon itself or non-platform ids;
the addon ends up in the materialised install order; the
filesystem/install-order invariant and the dependency-first ordering are
preserved. -/
def InstOk (cat : Catalog) (home addon : String) (s s' : St) : Prop :=
  (∃ Δ, s'.trace = s.trace ++ Δ ∧
    ∀ x ∈ installedList Δ, x = addon ∨ isPlatformDep x = false) ∧
  addon ∈ installedList s'.trace ∧
  GoodSt home s' ∧
  DepsBef cat (installedList s'.trace)

/-- What one successful dependency loop guarantees. -/
def DepsOk (cat : Catalog) (home : String) (ds : List String) (s s' : St) :
    Prop :=
  (∃ Δ, s'.trace = s.trace ++ Δ ∧
    ∀ x ∈ installedList Δ, isPlatformDep x = false) ∧
  GoodSt home s' ∧
  DepsBef cat (installedList s'.trace) ∧
  (∀ d ∈ ds, isPlatformDep d = false → d ∈ installedList s'.trace)

/-- The dependency loop establishes `DepsOk` whenever every recursive call
establishes `InstOk`. -/
theorem installDepsWith_ord (cat : Catalog) (home : String)
    (rec : String → St → Except (Err × St) St)
    (hr : ∀ d s s', noSlash d → GoodSt home s →
      DepsBef cat (installedList s.trace) → rec d s = .ok s' →
      InstOk cat home d s s') :
    ∀ ds, (∀ d ∈ ds, noSlash d) → ∀ s s', GoodSt home s →
      DepsBef cat (installedList s.trace) →
      installDepsWith rec ds s = .ok s' → DepsOk cat home ds s s' := by
  intro ds
  induction ds with
  | nil =>
    intro _ s s' hG hD hok
    cases hok
    exact ⟨⟨[], by simp, by simp [installedList]⟩, hG, hD, by simp⟩
  | cons d ds ih =>
    intro hns s s' hG hD hok
    unfold installDepsWith at hok
    by_cases hp : isPlatformDep d = true
    · rw [if_pos hp] at hok
      have hres := ih (fun d' hd' => hns d' (List.mem_cons_of_mem _ hd'))
        s s' hG hD hok
      refine ⟨hres.1, hres.2.1, hres.2.2.1, ?_⟩
      intro d' hd' hpd'
      rcases List.mem_cons.mp hd' with h1 | h1
      · subst h1; rw [hp] at hpd'; cases hpd'
      · exact hres.2.2.2 d' h1 hpd'
    · rw [if_neg hp] at hok
      cases hrec : rec d s with
      | error e => rw [hrec] at hok; cases hok
      | ok s1 =>
        rw [hrec] at hok
        have hdns : noSlash d := hns d (List.mem_cons_self _ _)
        have hI := hr d s s1 hdns hG hD hrec
        have hres := ih (fun d' hd' => hns d' (List.mem_cons_of_mem _ hd'))
          s1 s' hI.2.2.1 hI.2.2.2 hok
        have hpf : isPlatformDep d = false := by
          revert hp; cases isPlatformDep d <;> simp
        rcases hI.1 with ⟨D1, hD1, hall1⟩
        rcases hres.1 with ⟨D2, hD2, hall2⟩
        refine ⟨⟨D1 ++ D2, ?_, ?_⟩, hres.2.1, hres.2.2.1, ?_⟩
        · rw [hD2, hD1, List.append_assoc]
        · intro x hx
          rw [installedList_append] at hx
          rcases List.mem_append.mp hx with h1 | h1
          · rcases hall1 x h1 with h2 | h2
            · subst h2; exact hpf
            · exact h2
          · exact hall2 x h1
        · intro d' hd' hpd'
          rcases List.mem_cons.mp hd' with h1 | h1
          · subst h1
            rw [hD2, installedList_append]
            exact List.mem_append_left _ hI.2.1
          · exact hres.2.2.2 d' h1 hpd'

/-- Every successful `install_addon` call establishes `InstOk`: new
full-path installs are the addon itself or non-platform dependency ids, the
addon ends up in the materialised order, and the filesystem/order and
dependency-first invariants are preserved. -/
theorem installAddon_ord (cat : Catalog) (o : Oracles)
    (ru u home rel : String) (en : Bool) (now : String) (hcat : CatOk cat) :
    ∀ fuel addon s s', noSlash addon → GoodSt home s →
      DepsBef cat (installedList s.trace) →
      installAddon fuel cat o ru u home rel en now addon s = .ok s' →
      InstOk cat home addon s s' := by
  intro fuel
  induction fuel with
  | zero => intro addon s s' _ _ _ hok; cases hok
  | succ n ih =>
    intro addon s s' hns hG hD hok
    rw [installAddon_succ] at hok
    cases hfast : (s.fs.contains (dirPath home addon) && en) with
    | true =>
      rw [installStep_fast hfast] at hok
      cases hu : updateDb s addon home true now with
      | error e => rw [hu] at hok; cases hok
      | ok s2 =>
        rw [hu] at hok
        cases hok
        have hf := updateDb_frame _ _ _ _ _ _ hu
        have hc : dirPath home addon ∈ s.fs := by
          have h1 := (Bool.and_eq_true _ _).mp hfast
          simpa using h1.1
        have hmem : addon ∈ installedList s.trace := hG addon hns hc
        have htr : ({ s2 with trace :=
            s2.trace ++ [Event.fastUpserted addon] } : St).trace =
            s.trace ++ [Event.fastUpserted addon] := by
          show s2.trace ++ _ = _
          rw [hf.2.1]
        have hilf : installedList [Event.fastUpserted addon] = [] := rfl
        refine ⟨⟨[Event.fastUpserted addon], htr, by simp [hilf]⟩, ?_, ?_, ?_⟩
        · rw [htr, installedList_append, hilf, List.append_nil]
          exact hmem
        · intro x hnx hdx
          have hdx' : dirPath home x ∈ s.fs := hf.1 ▸ hdx
          rw [htr, installedList_append, hilf, List.append_nil]
          exact hG x hnx hdx'
        · rw [htr, installedList_append, hilf, List.append_nil]
          exact hD
    | false =>
      cases hdeps : installDepsWith (installAddon n cat o ru u home rel en now)
          (catDeps cat addon) s with
      | error e => rw [installStep_deps_err hfast hdeps] at hok; cases hok
      | ok s1 =>
        rw [installStep_deps_ok hfast hdeps] at hok
        have hPsi := installDepsWith_ord cat home _
          (fun d s0 s0' hd hG0 hD0 hrec => ih d s0 s0' hd hG0 hD0 hrec)
          (catDeps cat addon) (fun d hd => catDeps_noSlash hcat hd)
          s s1 hG hD hdeps
        cases hp : catPath cat addon with
        | none => rw [installCont_unknown hp] at hok; cases hok
        | some zp =>
          rw [installCont_some hp] at hok
          unfold installFetch at hok
          by_cases hdl : o.downloadOk (ru ++ ("/" ++ zp)) = true
          · rw [if_pos hdl] at hok
            by_cases hex : o.extractOk addon = true
            · rw [if_pos hex] at hok
              by_cases hch : o.chownOk u addon = true
              · rw [if_pos hch] at hok
                cases hu : updateDb
                    (stAfterCh addon (stAfterEx home addon
                      (stAfterDl home (ru ++ ("/" ++ zp)) zp s1)))
                    addon home en now with
                | error e => rw [hu] at hok; cases hok
                | ok s5 =>
                  rw [hu] at hok
                  cases hok
                  have hf := updateDb_frame _ _ _ _ _ _ hu
                  have htr5 : s5.trace =
                      ((s1.trace ++ [Event.downloaded (ru ++ ("/" ++ zp))]) ++
                        [Event.extracted addon]) ++ [Event.chowned addon] :=
                    hf.2.1
                  have hfs5 : s5.fs =
                      (s1.fs ++ [pkgPath home (basename zp)]) ++
                        [dirPath home addon] := hf.1
                  rcases hPsi.1 with ⟨D1, hD1, hall1⟩
                  have htr' : ({ s5 with trace :=
                      s5.trace ++ [Event.upserted addon en] } : St).trace =
                      s1.trace ++ [Event.downloaded (ru ++ ("/" ++ zp)),
                        Event.extracted addon, Event.chowned addon,
                        Event.upserted addon en] := by
                    show s5.trace ++ _ = _
                    rw [htr5]
                    simp
                  have hil : installedList
                      (s1.trace ++ [Event.downloaded (ru ++ ("/" ++ zp)),
                        Event.extracted addon, Event.chowned addon,
                        Event.upserted addon en]) =
                      installedList s1.trace ++ [addon] := by
                    rw [installedList_append]
                    rfl
                  refine ⟨⟨D1 ++ [Event.downloaded (ru ++ ("/" ++ zp)),
                      Event.extracted addon, Event.chowned addon,
                      Event.upserted addon en], ?_, ?_⟩, ?_, ?_, ?_⟩
                  · rw [htr', hD1, List.append_assoc]
                  · intro x hx
                    rw [installedList_append] at hx
                    rcases List.mem_append.mp hx with h1 | h1
                    · exact Or.inr (hall1 x h1)
                    · have : x = addon := by simpa [installedList] using h1
                      exact Or.inl this
                  · rw [htr', hil]
                    exact List.mem_append_right _ (List.mem_singleton_self _)
                  · intro x hnx hdx
                    have hdx' : dirPath home x ∈
                        (s1.fs ++ [pkgPath home (basename zp)]) ++
                          [dirPath home addon] := hfs5 ▸ hdx
                    rw [htr', hil]
                    rcases List.mem_append.mp hdx' with h1 | h1
                    · rcases List.mem_append.mp h1 with h2 | h2
                      · exact List.mem_append_left _ (hPsi.2.1 x hnx h2)
                      · have := List.mem_singleton.mp h2
                        exact absurd this (dirPath_ne_pkgPath hnx)
                    · have := dirPath_inj (List.mem_singleton.mp h1)
                      subst this
                      exact List.mem_append_right _ (List.mem_singleton_self _)
                  · rw [htr', hil]
                    exact DepsBef_snoc hPsi.2.2.1 hPsi.2.2.2
              · rw [if_neg hch] at hok; cases hok
            · rw [if_neg hex] at hok; cases hok
          · rw [if_neg hdl] at hok; cases hok

/-- C1: for every catalog (with slash-free ids) and requested root, a
terminating `install_addon` run from a clean filesystem materialises an
install order in which (a) everything installed is the root or a
non-platform id — no dependency in the `xbmc` namespace is ever looked up
or installed, since only installed ids reach the catalog lookups — and (b)
every transitive non-platform dependency of an installed addon is listed
strictly before the addon that requires it. -/
theorem install_order_deps_first (fuel : Nat) (cat : Catalog) (o : Oracles)
    (repoUrl user home release : String) (enabled : Bool) (now root : String)
    (s s' : St) (hcat : CatOk cat) (hroot : noSlash root)
    (hfs : s.fs = []) (htr : s.trace = [])
    (hok : installAddon fuel cat o repoUrl user home release enabled now
      root s = .ok s') :
    (∀ x ∈ installedList s'.trace, x = root ∨ isPlatformDep x = false) ∧
    (∀ (i : Nat) (x : String), (installedList s'.trace)[i]? = some x →
      ∀ d, Relation.TransGen (DepOn cat) d x →
        ∃ j : Nat, j < i ∧ (installedList s'.trace)[j]? = some d) := by
  have hG : GoodSt home s := by
    intro x _ hx
    rw [hfs] at hx
    cases hx
  have hD : DepsBef cat (installedList s.trace) := by
    rw [htr]
    intro i x hg
    simp [installedList] at hg
  have hI := installAddon_ord cat o repoUrl user home release enabled now
    hcat fuel root s s' hroot hG hD hok
  constructor
  · intro x hx
    rcases hI.1 with ⟨D, hDeq, hall⟩
    rw [hDeq, htr, List.nil_append] at hx
    exact hall x hx
  · exact fun i x hg d htg => DepsBef_trans hI.2.2.2 i x hg d htg

/-- The world produced by the C1 witness run. -/
def sC1 : St :=
  ⟨"/h",
   ["/h/addons/packages/b.zip", "/h/addons/script.module.b",
    "/h/addons/packages/a.zip", "/h/addons/plugin.video.a"],
   [⟨none, "script.module.b", true, "T", none, none, ""⟩,
    ⟨none, "plugin.video.a", true, "T", none, none, ""⟩],
   [.downloaded "http://r/b.zip", .extracted "script.module.b",
    .chowned "script.module.b", .upserted "script.module.b" true,
    .downloaded "http://r/a.zip", .extracted "plugin.video.a",
    .chowned "plugin.video.a", .upserted "plugin.video.a" true]⟩

/-- Witness for C1 at a concrete input: installing `plugin.video.a` over
`catC2` from the empty world yields the order [script.module.b,
plugin.video.a]. -/
theorem install_order_deps_first_w :
    CatOk catC2 ∧ noSlash "plugin.video.a" ∧ sEmpty.fs = [] ∧
    sEmpty.trace = [] ∧
    installAddon 5 catC2 oAll "http://r" "kodi" "/h" "leia" true "T"
        "plugin.video.a" sEmpty = .ok sC1 ∧
    (∀ x ∈ installedList sC1.trace,
      x = "plugin.video.a" ∨ isPlatformDep x = false) :=
  ⟨by decide, by decide, rfl, rfl, by decide,
   (install_order_deps_first 5 catC2 oAll "http://r" "kodi" "/h" "leia" true
     "T" "plugin.video.a" sEmpty sC1 (by decide) (by decide) rfl rfl
     (by decide)).1⟩

end KodiAddon
